import Mathlib

/-!
# Verification of mountpoint-s3's buffer pool and metadata-cache consistency layer

The first part embeds `src/mountpoint-s3-fs/src/buffer_pool.rs`:
`BufferPool`, `LeasedBytesMut` and their operations, together with a trace
semantics over acquire/mutate/release events and a per-lease lifecycle
relation capturing `Drop` and `Bytes::from_owner` reference counting.

The second part models the lookup/metadata cache with TTL and
failure-triggered eviction.  Its implementation is exercised by
`src/mountpoint-s3/tests/fuse_tests/consistency_test.rs` but lives outside
the sources here, so those definitions are modelled from the specification
text (see the individual doc comments).
-/

namespace Mountpoint

/-- Model of `bytes::BytesMut`: a byte list plus its capacity.
`cap` only matters where the Rust code talks about capacity; writes through
the ordinary `BytesMut` filling APIs grow capacity as needed and never
shrink it, which `fill` reflects. -/
structure BytesMut where
  data : List Nat
  cap : Nat
deriving DecidableEq

/-- `BytesMut::clear`: drops the contents, retains the capacity. -/
def BytesMut.clear (b : BytesMut) : BytesMut :=
  { b with data := [] }

/-- `BytesMut::with_capacity`. -/
def BytesMut.withCapacity (n : Nat) : BytesMut :=
  { data := [], cap := n }

/-- `BytesMut::len`. -/
def BytesMut.len (b : BytesMut) : Nat :=
  b.data.length

/-- A caller filling the buffer through `&mut BytesMut` (write/extend APIs):
the contents become `d` and the capacity grows if the write overflows it. -/
def BytesMut.fill (b : BytesMut) (d : List Nat) : BytesMut :=
  { data := d, cap := max b.cap d.length }

/-- `BufferPool` from `buffer_pool.rs`: a queue of idle buffers (the
`Mutex<VecDeque<BytesMut>>`, front at the list head) plus the fixed
`buffer_size`. -/
structure BufferPool where
  buffers : List BytesMut
  buffer_size : Nat
deriving DecidableEq

/-- `BufferPool::new`. -/
def BufferPool.new (buffer_size : Nat) : BufferPool :=
  { buffers := [], buffer_size }

/-- `LeasedBytesMut`: the `Option<BytesMut>` field, `Some` until `Drop`
takes it.  The `Arc<BufferPool>` back-pointer is passed explicitly to the
operations that use it. -/
structure LeasedBytesMut where
  buffer : Option BytesMut
deriving DecidableEq

/-- `BufferPool::get_buffer`: pop the front idle buffer and clear it, or
allocate a fresh one of capacity `buffer_size`; wrap it in a lease. -/
def BufferPool.get_buffer (p : BufferPool) : LeasedBytesMut × BufferPool :=
  match p.buffers with
  | b :: rest => ({ buffer := some b.clear }, { p with buffers := rest })
  | [] => ({ buffer := some (BytesMut.withCapacity p.buffer_size) }, p)

/-- `BufferPool::return_buffer`: push the buffer, as given, to the back of
the idle queue. -/
def BufferPool.return_buffer (p : BufferPool) (b : BytesMut) : BufferPool :=
  { p with buffers := p.buffers ++ [b] }

/-- `Drop for LeasedBytesMut`: take the buffer (`none` models the `expect`
panic, which never fires from reachable states) and return it to the pool. -/
def LeasedBytesMut.dropLease (l : LeasedBytesMut) (p : BufferPool) : Option BufferPool :=
  match l.buffer with
  | some b => some (p.return_buffer b)
  | none => none

/-- `AsRef<[u8]> for LeasedBytesMut`. -/
def LeasedBytesMut.as_ref (l : LeasedBytesMut) : Option (List Nat) :=
  match l.buffer with
  | some b => some b.data
  | none => none

/-- `LeasedBytesMut::bytes_mut` followed by the caller filling the buffer
with `d`. -/
def LeasedBytesMut.bytes_mut_fill (l : LeasedBytesMut) (d : List Nat) : Option LeasedBytesMut :=
  match l.buffer with
  | some b => some { buffer := some (b.fill d) }
  | none => none

/-! ## Pool trace semantics

Events against one pool: a `get_buffer` call, a caller mutating an
outstanding lease's buffer, and a lease being dropped (its `Drop` returning
the buffer).  `outstanding` lists the buffers held by live leases;
`allocCount` and `peak` are ghost counters for the allocation bound. -/

inductive PoolEvent where
  | acquire
  | mutate (idx : Nat) (d : List Nat)
  | release (idx : Nat)
deriving DecidableEq

structure PoolTraceState where
  pool : BufferPool
  outstanding : List BytesMut
  allocCount : Nat
  peak : Nat
deriving DecidableEq

/-- One step of the pool trace semantics.  `acquire` runs
`BufferPool::get_buffer` (counting a fresh allocation when the idle queue
is empty), `mutate` fills an outstanding buffer, `release` runs the lease's
`Drop`. -/
def poolStep (s : PoolTraceState) : PoolEvent → Option PoolTraceState
  | .acquire =>
    match (s.pool.get_buffer).1.buffer with
    | some b =>
      some { pool := (s.pool.get_buffer).2
             outstanding := s.outstanding ++ [b]
             allocCount := s.allocCount + (if s.pool.buffers = [] then 1 else 0)
             peak := max s.peak (s.outstanding.length + 1) }
    | none => none
  | .mutate i d =>
    match s.outstanding[i]? with
    | some b => some { s with outstanding := s.outstanding.set i (b.fill d) }
    | none => none
  | .release i =>
    match s.outstanding[i]? with
    | some b =>
      some { s with pool := s.pool.return_buffer b
                    outstanding := s.outstanding.eraseIdx i }
    | none => none

def runPool (s : PoolTraceState) : List PoolEvent → Option PoolTraceState
  | [] => some s
  | e :: evs => (poolStep s e).bind (fun s' => runPool s' evs)

/-- The pool at mount time: empty idle queue, no leases. -/
def initPool (n : Nat) : PoolTraceState :=
  { pool := BufferPool.new n, outstanding := [], allocCount := 0, peak := 0 }

/-! ## Per-lease lifecycle

A single `LeasedBytesMut` is `live` until it is either dropped directly
(`Drop for LeasedBytesMut` returns the buffer to the pool at once) or
consumed by `into_bytes`, which calls `Bytes::from_owner(self)`.  Per the
`bytes` crate's documented `from_owner` contract, the owner — and hence the
lease's `Drop`, the single point that returns the buffer — runs only when
the last clone of the resulting `Bytes` is dropped.  `shared bs r` is the
converted state: `bs` the frozen byte contents, `r` the live reference
count.  Each step reports how many pool returns it fires. -/

inductive LeaseLife where
  | live (buf : BytesMut)
  | shared (bytes : List Nat) (refs : Nat)
  | done
deriving DecidableEq

inductive LeaseEvent where
  | fill (d : List Nat)
  | dropLive
  | intoBytes
  | cloneRef
  | dropRef
deriving DecidableEq

def leaseStep : LeaseLife → LeaseEvent → Option (LeaseLife × Nat)
  | .live b, .fill d => some (.live (b.fill d), 0)
  | .live _, .dropLive => some (.done, 1)
  | .live b, .intoBytes => some (.shared b.data 1, 0)
  | .shared bs (n + 1), .cloneRef => some (.shared bs (n + 2), 0)
  | .shared _ 1, .dropRef => some (.done, 1)
  | .shared bs (n + 2), .dropRef => some (.shared bs (n + 1), 0)
  | _, _ => none

/-- Run a lease lifecycle trace, accumulating the number of pool returns. -/
def runLease (s : LeaseLife) : List LeaseEvent → Option (LeaseLife × Nat)
  | [] => some (s, 0)
  | e :: evs =>
    (leaseStep s e).bind fun p => (runLease p.1 evs).map fun q => (q.1, p.2 + q.2)

/-- Pool returns still owed by a lease in the given state: one until the
lifecycle completes, zero after. -/
def returnsOwed : LeaseLife → Nat
  | .live _ => 1
  | .shared _ _ => 1
  | .done => 0

/-! ## Lease public-interface call sequences

For the `Option`-is-`Some` safety property: the calls a holder of a
`LeasedBytesMut` can make before giving the lease up. -/

inductive LeaseApiOp where
  | fillOp (d : List Nat)
  | asRefOp
deriving DecidableEq

def runApi (l : LeasedBytesMut) : List LeaseApiOp → Option LeasedBytesMut
  | [] => some l
  | .fillOp d :: ops => (l.bytes_mut_fill d).bind fun l' => runApi l' ops
  | .asRefOp :: ops => (l.as_ref).bind fun _ => runApi l ops

/-! ## Lookup/metadata cache and open-handle consistency

The cache, open and read paths are exercised by
`tests/fuse_tests/consistency_test.rs` but implemented outside the sources
embedded above, so everything in this section is modelled from the
specification (§3–§4, §6–§7): cache entries with TTL, failure-triggered
eviction, and per-handle identity snapshots. -/

/-- Modelled from the spec: a remote object generation — an identity
marker (version/etag-equivalent, distinguishing object generations) and
the object bytes. -/
structure RemoteObject where
  ident : Nat
  data : List Nat
deriving DecidableEq

/-- `CacheConfig` (configuration surface, §6): `serve_lookup_from_cache`,
`dir_ttl`, `file_ttl` (durations as naturals). -/
structure CacheConfig where
  serve_lookup_from_cache : Bool
  dir_ttl : Nat
  file_ttl : Nat
deriving DecidableEq

/-- Modelled from the spec: the per-path cache entry — `Absent`, or a
cached remote identity with its cached-at timestamp.  Expiry is implicit
(`now > cached_at + ttl` observed at access time), so no expired variant
is stored. -/
inductive CacheState where
  | absent
  | cached (ident : Nat) (cached_at : Nat)
deriving DecidableEq

/-- Modelled from the spec: `OpenFileState` — the identity snapshot bound
at open time.  `dataAtOpen` is a ghost field recording the remote bytes
the snapshot denoted at open time (empty when the snapshot was already
stale at open, in which case no read through it can succeed). -/
structure Handle where
  ident : Nat
  dataAtOpen : List Nat
deriving DecidableEq

/-- Modelled from the spec (§7): error kinds surfaced to the dispatcher —
a failed bound read, or a missing entry from a fresh lookup. -/
inductive Err where
  | readFailure
  | notFound
deriving DecidableEq

/-- Modelled from the spec: the world for one path — the remote store's
current object (mutable out-of-band), a fresh-identity counter (the remote
store never reuses a version marker), the cache entry, the bound handles,
and a ghost count of remote lookup calls. -/
structure World where
  config : CacheConfig
  store : Option RemoteObject
  nextIdent : Nat
  cache : CacheState
  handles : List Handle
  remoteLookupCount : Nat
deriving DecidableEq

/-- Modelled from the spec: serve the entry only when caching is enabled
and `now ≤ cached_at + ttl` — an entry is never returned as valid once
`now > cached_at + ttl`, and `serve_lookup_from_cache = false` disables
caching entirely. -/
def cacheValid (cfg : CacheConfig) (c : CacheState) (now : Nat) : Option Nat :=
  match c with
  | .absent => none
  | .cached id t =>
    if cfg.serve_lookup_from_cache ∧ now ≤ t + cfg.file_ttl then some id else none

/-- Modelled from the spec: `lookup(path)` — serve from a valid cache
entry without a remote call; otherwise resolve fresh from the remote
store, caching a successful result (when caching is enabled) and
propagating `RemoteNotFound` as a missing-entry result. -/
def lookup (w : World) (now : Nat) : Except Err Nat × World :=
  match cacheValid w.config w.cache now with
  | some id => (.ok id, w)
  | none =>
    match w.store with
    | some obj =>
      (.ok obj.ident,
       { w with
           remoteLookupCount := w.remoteLookupCount + 1
           cache := if w.config.serve_lookup_from_cache then .cached obj.ident now else .absent })
    | none =>
      (.error .notFound,
       { w with remoteLookupCount := w.remoteLookupCount + 1, cache := .absent })

/-- Modelled from the spec: evict the path's entry when it carries the
identity the failed bound fetch was issued against. -/
def evictIfIdent (c : CacheState) (id : Nat) : CacheState :=
  match c with
  | .cached cid _ => if cid = id then .absent else c
  | .absent => .absent

/-- Modelled from the spec: `open(path)` — resolve the current identity
(cache hit if valid, else fresh lookup) and snapshot it into a new
handle. -/
def openFile (w : World) (now : Nat) : Except Err Handle × World :=
  match (lookup w now).1 with
  | .ok id =>
    let w' := (lookup w now).2
    let d := match w'.store with
             | some obj => if obj.ident = id then obj.data else []
             | none => []
    let h : Handle := { ident := id, dataAtOpen := d }
    (.ok h, { w' with handles := h :: w'.handles })
  | .error e => (.error e, (lookup w now).2)

/-- Modelled from the spec: a read through a handle is a bound fetch
against the handle's snapshot identity.  Not-found or identity-mismatch
surfaces as a failed read — never stale bytes — and evicts the path's
cache entry. -/
def readHandle (w : World) (h : Handle) : Except Err (List Nat) × World :=
  match w.store with
  | some obj =>
    if obj.ident = h.ident then (.ok obj.data, w)
    else (.error .readFailure, { w with cache := evictIfIdent w.cache h.ident })
  | none => (.error .readFailure, { w with cache := evictIfIdent w.cache h.ident })

/-- Modelled from the spec: a fresh open of the path followed by one read
through the new handle; an open failure propagates. -/
def openAndRead (w : World) (now : Nat) : Except Err (List Nat) × World :=
  match openFile w now with
  | (.ok h, w') => readHandle w' h
  | (.error e, w') => (.error e, w')

/-- Events over the world: out-of-band remote mutations, and filesystem
opens, reads and lookups.  Out-of-band `put` installs a new generation
with a fresh identity. -/
inductive WorldEvent where
  | put (d : List Nat)
  | delete
  | doOpen (now : Nat)
  | doRead (idx : Nat)
  | doLookup (now : Nat)
deriving DecidableEq

def extPut (w : World) (d : List Nat) : World :=
  { w with store := some { ident := w.nextIdent, data := d }, nextIdent := w.nextIdent + 1 }

def extDelete (w : World) : World :=
  { w with store := none }

def worldStep (w : World) : WorldEvent → World
  | .put d => extPut w d
  | .delete => extDelete w
  | .doOpen now => (openFile w now).2
  | .doRead i =>
    match w.handles[i]? with
    | some h => (readHandle w h).2
    | none => w
  | .doLookup now => (lookup w now).2

def runWorld (w : World) (evs : List WorldEvent) : World :=
  evs.foldl worldStep w

/-- The world at mount time: empty remote store, empty cache, no handles. -/
def initWorld (cfg : CacheConfig) : World :=
  { config := cfg, store := none, nextIdent := 0, cache := .absent,
    handles := [], remoteLookupCount := 0 }

/-- Repeated lookups at the given times. -/
def runLookups (w : World) (ts : List Nat) : World :=
  ts.foldl (fun w t => (lookup w t).2) w

/-! ## Lease lifecycle lemmas -/

theorem leaseStep_owed {s : LeaseLife} {e : LeaseEvent} {s' : LeaseLife} {k : Nat}
    (h : leaseStep s e = some (s', k)) :
    returnsOwed s = returnsOwed s' + k := by
  cases s with
  | live b =>
    cases e <;> simp [leaseStep] at h <;>
      simp [← h.1, ← h.2, returnsOwed]
  | shared bs r =>
    rcases r with _ | _ | n <;> cases e <;> simp [leaseStep] at h <;>
      simp [← h.1, ← h.2, returnsOwed]
  | done => cases e <;> simp [leaseStep] at h

theorem runLease_owed {evs : List LeaseEvent} {s s' : LeaseLife} {n : Nat}
    (h : runLease s evs = some (s', n)) :
    returnsOwed s = returnsOwed s' + n := by
  induction evs generalizing s n with
  | nil =>
    simp [runLease] at h
    simp [h.1, h.2]
  | cons e evs ih =>
    simp only [runLease, Option.bind_eq_some, Option.map_eq_some'] at h
    obtain ⟨⟨s₂, k⟩, hstep, ⟨s₃, m⟩, hrun, hpair⟩ := h
    dsimp only at hrun hpair
    simp only [Prod.mk.injEq] at hpair
    obtain ⟨rfl, rfl⟩ := hpair
    have h1 := leaseStep_owed hstep
    have h2 := ih hrun
    omega

theorem leaseStep_shared {bs : List Nat} {r : Nat} {e : LeaseEvent} {s' : LeaseLife} {k : Nat}
    (h : leaseStep (.shared bs r) e = some (s', k)) :
    s' = .done ∨ ∃ r', s' = .shared bs r' := by
  rcases r with _ | _ | n <;> cases e <;> simp [leaseStep] at h <;>
    simp [← h.1]

theorem runLease_done {evs : List LeaseEvent} {s' : LeaseLife} {n : Nat}
    (h : runLease .done evs = some (s', n)) :
    s' = .done ∧ n = 0 := by
  cases evs with
  | nil =>
    simp [runLease] at h
    exact ⟨h.1.symm, h.2.symm⟩
  | cons e evs => simp [runLease, leaseStep] at h

theorem runLease_shared_bytes {evs : List LeaseEvent} {bs bs' : List Nat} {r r' n : Nat}
    (h : runLease (.shared bs r) evs = some (.shared bs' r', n)) :
    bs' = bs := by
  induction evs generalizing r r' n with
  | nil =>
    simp [runLease] at h
    exact h.1.1.symm
  | cons e evs ih =>
    simp only [runLease, Option.bind_eq_some, Option.map_eq_some'] at h
    obtain ⟨⟨s₂, k⟩, hstep, ⟨s₃, m⟩, hrun, hpair⟩ := h
    dsimp only at hrun hpair
    simp only [Prod.mk.injEq] at hpair
    obtain ⟨h1, _⟩ := hpair
    subst h1
    rcases leaseStep_shared hstep with h3 | ⟨r₂, h3⟩
    · subst h3
      exact absurd (runLease_done hrun).1 (by simp)
    · subst h3
      exact ih hrun

theorem get_buffer_isSome (p : BufferPool) : (p.get_buffer).1.buffer.isSome = true := by
  rcases hp : p.buffers with _ | ⟨b, rest⟩ <;> simp [BufferPool.get_buffer, hp]

theorem runApi_isSome :
    ∀ (ops : List LeaseApiOp) (l : LeasedBytesMut), l.buffer.isSome = true →
      ∃ l', runApi l ops = some l' ∧ l'.buffer.isSome = true := by
  intro ops
  induction ops with
  | nil => exact fun l h => ⟨l, rfl, h⟩
  | cons op ops ih =>
    intro l h
    obtain ⟨b, hb⟩ := Option.isSome_iff_exists.mp h
    cases op with
    | fillOp d =>
      obtain ⟨l', h1, h2⟩ := ih { buffer := some (b.fill d) } rfl
      exact ⟨l', by simp [runApi, LeasedBytesMut.bytes_mut_fill, hb, h1], h2⟩
    | asRefOp =>
      obtain ⟨l', h1, h2⟩ := ih l h
      exact ⟨l', by simp [runApi, LeasedBytesMut.as_ref, hb, h1], h2⟩

/-- **C4**: every `LeasedBytesMut` triggers exactly one pool return over its
whole lifetime: any completed lifecycle (reaching `done`, whether by a
direct drop or via `into_bytes` and the drop of the last `Bytes`
reference) fires exactly one return, and an uncompleted lifecycle has
fired none — never zero returns for a completed lease and never two. -/
theorem C4_lease_returns_exactly_once (b : BytesMut) (evs : List LeaseEvent)
    (s' : LeaseLife) (n : Nat) (h : runLease (.live b) evs = some (s', n)) :
    (s' = .done ∧ n = 1) ∨ (s' ≠ .done ∧ n = 0) := by
  have howed := runLease_owed h
  cases s' <;> simp [returnsOwed] at howed ⊢ <;> omega

theorem C4_witness :
    runLease (.live { data := [2], cap := 4 })
      [.intoBytes, .cloneRef, .dropRef, .dropRef] = some (.done, 1) ∧
    ((LeaseLife.done = .done ∧ 1 = 1) ∨ (LeaseLife.done ≠ .done ∧ 1 = 0)) :=
  ⟨rfl, C4_lease_returns_exactly_once { data := [2], cap := 4 }
    [.intoBytes, .cloneRef, .dropRef, .dropRef] .done 1 rfl⟩

/-- **C7**: `into_bytes` yields the lease's bytes exactly as they are at
conversion time without returning the buffer to the pool; afterwards the
shared bytes are never mutated and no return fires while a reference
remains; the single return fires exactly at the drop of the last
reference. -/
theorem C7_into_bytes_preserves_and_defers :
    (∀ b : BytesMut, leaseStep (.live b) .intoBytes = some (.shared b.data 1, 0)) ∧
    (∀ (bs : List Nat) (r : Nat) (evs : List LeaseEvent) (bs' : List Nat) (r' n : Nat),
       runLease (.shared bs r) evs = some (.shared bs' r', n) → bs' = bs ∧ n = 0) ∧
    (∀ bs : List Nat, leaseStep (.shared bs 1) .dropRef = some (.done, 1)) := by
  refine ⟨fun b => rfl, fun bs r evs bs' r' n h => ⟨runLease_shared_bytes h, ?_⟩, fun bs => rfl⟩
  have howed := runLease_owed h
  simp [returnsOwed] at howed
  omega

theorem C7_witness :
    runLease (.shared [5] 2) [.dropRef] = some (.shared [5] 1, 0) ∧
    (([5] : List Nat) = [5] ∧ 0 = 0) :=
  ⟨rfl, C7_into_bytes_preserves_and_defers.2.1 [5] 2 [.dropRef] [5] 1 0 rfl⟩

/-- **C10**: a lease produced by `get_buffer` carries `Some` from
construction through any sequence of public-interface calls, so the
`expect`-backed operations (`bytes_mut`, `as_ref`) all succeed and the
final `Drop` finds the buffer present — none of the `expect` calls can
panic. -/
theorem C10_lease_option_always_some (p : BufferPool) (ops : List LeaseApiOp) :
    ∃ l', runApi (p.get_buffer).1 ops = some l' ∧ l'.buffer.isSome = true ∧
      ∀ q : BufferPool, (l'.dropLease q).isSome = true := by
  obtain ⟨l', h1, h2⟩ := runApi_isSome ops (p.get_buffer).1 (get_buffer_isSome p)
  obtain ⟨b, hb⟩ := Option.isSome_iff_exists.mp h2
  exact ⟨l', h1, h2, fun q => by simp [LeasedBytesMut.dropLease, hb]⟩

/-! ## Pool trace invariants -/

/-- Reachable-state invariant of the pool trace: the configured
`buffer_size` is stable, every tracked buffer has at least that capacity,
every allocated buffer is either idle or held by a lease, and the
allocation count never exceeds the peak number of simultaneous leases. -/
def PoolGood (n : Nat) (s : PoolTraceState) : Prop :=
  s.pool.buffer_size = n ∧
  (∀ b ∈ s.pool.buffers, n ≤ b.cap) ∧
  (∀ b ∈ s.outstanding, n ≤ b.cap) ∧
  s.allocCount = s.outstanding.length + s.pool.buffers.length ∧
  s.allocCount ≤ s.peak

theorem poolStep_good {n : Nat} {s s' : PoolTraceState} {e : PoolEvent}
    (hg : PoolGood n s) (h : poolStep s e = some s') : PoolGood n s' := by
  obtain ⟨hsz, hidle, hout, hcnt, hpeak⟩ := hg
  cases e with
  | acquire =>
    rcases hp : s.pool.buffers with _ | ⟨f, rest⟩ <;>
      simp [poolStep, BufferPool.get_buffer, hp] at h <;> subst h
    · rw [hp] at hcnt
      refine ⟨hsz, ?_, ?_, ?_, ?_⟩
      · intro b hb
        exact hidle b hb
      · intro b hb
        rcases List.mem_append.mp hb with hb | hb
        · exact hout b hb
        · simp at hb
          subst hb
          simp [BytesMut.withCapacity, hsz]
      · simp [hp] at hcnt ⊢
        omega
      · simp at hcnt
        have : s.outstanding.length + 1 ≤ max s.peak (s.outstanding.length + 1) :=
          Nat.le_max_right _ _
        simp
        omega
    · rw [hp] at hcnt
      refine ⟨hsz, ?_, ?_, ?_, ?_⟩
      · intro b hb
        exact hidle b (by simp [hp, hb])
      · intro b hb
        rcases List.mem_append.mp hb with hb | hb
        · exact hout b hb
        · simp at hb
          subst hb
          simpa [BytesMut.clear] using hidle f (by simp [hp])
      · simp at hcnt ⊢
        omega
      · have : s.peak ≤ max s.peak (s.outstanding.length + 1) := Nat.le_max_left _ _
        simp
        omega
  | mutate i d =>
    rcases hb : s.outstanding[i]? with _ | b <;> simp [poolStep, hb] at h
    subst h
    refine ⟨hsz, hidle, ?_, ?_, ?_⟩
    · intro b' hb'
      rcases List.mem_or_eq_of_mem_set hb' with hb' | rfl
      · exact hout b' hb'
      · exact le_trans (hout b (List.getElem?_mem hb))
          (by simp only [BytesMut.fill]
              exact Nat.le_max_left b.cap d.length)
    · simpa using hcnt
    · simpa using hpeak
  | release i =>
    rcases hb : s.outstanding[i]? with _ | b <;> simp [poolStep, hb] at h
    subst h
    have hlt : i < s.outstanding.length := (List.getElem?_eq_some.mp hb).1
    refine ⟨hsz, ?_, ?_, ?_, ?_⟩
    · intro b' hb'
      rcases List.mem_append.mp hb' with hb' | hb'
      · exact hidle b' hb'
      · simp at hb'
        subst hb'
        exact hout _ (List.getElem?_mem hb)
    · intro b' hb'
      exact hout b' (List.eraseIdx_subset _ _ hb')
    · simp [List.length_eraseIdx, hlt, BufferPool.return_buffer]
      omega
    · simpa using hpeak

theorem runPool_good {n : Nat} {evs : List PoolEvent} {s s' : PoolTraceState}
    (h : runPool s evs = some s') (hg : PoolGood n s) : PoolGood n s' := by
  induction evs generalizing s with
  | nil =>
    simp [runPool] at h
    exact h ▸ hg
  | cons e evs ih =>
    simp only [runPool, Option.bind_eq_some] at h
    obtain ⟨s₂, hstep, hrun⟩ := h
    exact ih hrun (poolStep_good hg hstep)

theorem initPool_good (n : Nat) : PoolGood n (initPool n) := by
  refine ⟨rfl, ?_, ?_, rfl, le_refl 0⟩ <;> simp [initPool, BufferPool.new]

/-- **C5**: in every reachable pool state, `get_buffer` hands out a buffer
of length 0 and capacity at least `buffer_size`; when the idle queue is
non-empty it reuses the front buffer (cleared, capacity retained, queue
popped), otherwise it allocates fresh with capacity `buffer_size`. -/
theorem C5_get_buffer_contract (n : Nat) (evs : List PoolEvent) (s : PoolTraceState)
    (h : runPool (initPool n) evs = some s) :
    ∃ b, (s.pool.get_buffer).1.buffer = some b ∧ b.len = 0 ∧ n ≤ b.cap ∧
      (s.pool.buffers = [] →
        b = BytesMut.withCapacity n ∧ (s.pool.get_buffer).2 = s.pool) ∧
      (∀ f r, s.pool.buffers = f :: r →
        b = f.clear ∧ b.cap = f.cap ∧ ((s.pool.get_buffer).2).buffers = r) := by
  obtain ⟨hsz, hidle, -, -, -⟩ := runPool_good h (initPool_good n)
  rcases hp : s.pool.buffers with _ | ⟨f, rest⟩
  · refine ⟨BytesMut.withCapacity n, ?_, rfl, le_refl n, fun _ => ⟨rfl, ?_⟩, ?_⟩
    · simp [BufferPool.get_buffer, hp, hsz]
    · simp [BufferPool.get_buffer, hp]
    · intro f r hfr
      exact absurd hfr (by simp)
  · refine ⟨f.clear, ?_, rfl, ?_, ?_, ?_⟩
    · simp [BufferPool.get_buffer, hp]
    · simpa [BytesMut.clear] using hidle f (by simp [hp])
    · intro hemp
      exact absurd hemp (by simp)
    · intro f' r' hfr
      injection hfr with h1 h2
      subst h1
      subst h2
      exact ⟨rfl, rfl, by simp [BufferPool.get_buffer, hp]⟩

theorem C5_witness :
    runPool (initPool 3) [] = some (initPool 3) ∧
    ∃ b, ((initPool 3).pool.get_buffer).1.buffer = some b ∧ b.len = 0 ∧ 3 ≤ b.cap ∧
      ((initPool 3).pool.buffers = [] →
        b = BytesMut.withCapacity 3 ∧ ((initPool 3).pool.get_buffer).2 = (initPool 3).pool) ∧
      (∀ f r, (initPool 3).pool.buffers = f :: r →
        b = f.clear ∧ b.cap = f.cap ∧ (((initPool 3).pool.get_buffer).2).buffers = r) :=
  ⟨rfl, C5_get_buffer_contract 3 [] (initPool 3) rfl⟩

/-- **C6 counterexample**: after acquiring a buffer, filling it with one
byte and dropping the lease, the idle queue holds a buffer of length 1 —
the buffer pushed on release had *not* been cleared at push time, contrary
to the claim. -/
theorem C6_counterexample :
    ¬ (∀ s : PoolTraceState,
        runPool (initPool 4) [.acquire, .mutate 0 [1], .release 0] = some s →
        ∀ b ∈ s.pool.buffers, b.len = 0) := by
  intro hclaim
  have h := hclaim
    { pool := { buffers := [{ data := [1], cap := 4 }], buffer_size := 4 },
      outstanding := [], allocCount := 1, peak := 1 }
    (by decide) { data := [1], cap := 4 } (by simp)
  simp [BytesMut.len] at h

/-- **C6 (amended)**: release pushes the lease's buffer to the back of the
idle queue *unchanged* (possibly non-empty); buffers are cleared at
acquisition time instead, so a reused front buffer is handed out with
length 0. -/
theorem C6_release_pushes_back_uncleared :
    (∀ (s : PoolTraceState) (i : Nat) (b : BytesMut) (s' : PoolTraceState),
       s.outstanding[i]? = some b → poolStep s (.release i) = some s' →
       s'.pool.buffers = s.pool.buffers ++ [b]) ∧
    (∀ (p : BufferPool) (f : BytesMut) (r : List BytesMut), p.buffers = f :: r →
       (p.get_buffer).1.buffer = some f.clear ∧ (f.clear).len = 0) := by
  constructor
  · intro s i b s' hb hstep
    simp [poolStep, hb] at hstep
    subst hstep
    rfl
  · intro p f r hfr
    exact ⟨by simp [BufferPool.get_buffer, hfr], rfl⟩

theorem C6_witness :
    (({ pool := { buffers := [], buffer_size := 4 },
        outstanding := [{ data := [9], cap := 4 }],
        allocCount := 1, peak := 1 } : PoolTraceState).outstanding[0]? =
      some { data := [9], cap := 4 }) ∧
    poolStep { pool := { buffers := [], buffer_size := 4 },
               outstanding := [{ data := [9], cap := 4 }],
               allocCount := 1, peak := 1 } (.release 0) =
      some { pool := { buffers := [{ data := [9], cap := 4 }], buffer_size := 4 },
             outstanding := [], allocCount := 1, peak := 1 } ∧
    ([{ data := [9], cap := 4 }] : List BytesMut) = [] ++ [{ data := [9], cap := 4 }] :=
  ⟨rfl, rfl,
    C6_release_pushes_back_uncleared.1
      { pool := { buffers := [], buffer_size := 4 },
        outstanding := [{ data := [9], cap := 4 }], allocCount := 1, peak := 1 }
      0 { data := [9], cap := 4 }
      { pool := { buffers := [{ data := [9], cap := 4 }], buffer_size := 4 },
        outstanding := [], allocCount := 1, peak := 1 }
      rfl rfl⟩

/-- **C8**: over any finite acquire/mutate/release trace, the number of
fresh allocations never exceeds the peak number of simultaneously
outstanding leases, and `get_buffer` always succeeds — acquisition never
blocks or fails for lack of idle buffers. -/
theorem C8_allocations_bounded_by_peak :
    (∀ (n : Nat) (evs : List PoolEvent) (s : PoolTraceState),
       runPool (initPool n) evs = some s → s.allocCount ≤ s.peak) ∧
    (∀ s : PoolTraceState, (poolStep s .acquire).isSome = true) := by
  constructor
  · intro n evs s h
    exact (runPool_good h (initPool_good n)).2.2.2.2
  · intro s
    rcases hp : s.pool.buffers with _ | ⟨f, rest⟩ <;>
      simp [poolStep, BufferPool.get_buffer, hp]

theorem C8_witness :
    runPool (initPool 3) [.acquire] =
      some { pool := BufferPool.new 3, outstanding := [{ data := [], cap := 3 }],
             allocCount := 1, peak := 1 } ∧
    ({ pool := BufferPool.new 3, outstanding := [{ data := [], cap := 3 }],
       allocCount := 1, peak := 1 } : PoolTraceState).allocCount ≤
      ({ pool := BufferPool.new 3, outstanding := [{ data := [], cap := 3 }],
         allocCount := 1, peak := 1 } : PoolTraceState).peak :=
  ⟨by decide,
   C8_allocations_bounded_by_peak.1 3 [.acquire]
     { pool := BufferPool.new 3, outstanding := [{ data := [], cap := 3 }],
       allocCount := 1, peak := 1 } (by decide)⟩

/-! ## World invariants for handle isolation -/

/-- Reachable-world invariant: the remote store only ever holds identities
below the fresh counter, every cached or bound identity is below it too,
and whenever the store's current identity coincides with a handle's
snapshot identity, the store's bytes are still the bytes captured at open
time. -/
def WorldInv (w : World) : Prop :=
  (∀ obj, w.store = some obj → obj.ident < w.nextIdent) ∧
  (∀ id t, w.cache = .cached id t → id < w.nextIdent) ∧
  (∀ h ∈ w.handles, h.ident < w.nextIdent) ∧
  (∀ h ∈ w.handles, ∀ obj, w.store = some obj → obj.ident = h.ident →
     obj.data = h.dataAtOpen)

theorem cacheValid_some {cfg : CacheConfig} {c : CacheState} {now id : Nat}
    (h : cacheValid cfg c now = some id) : ∃ t, c = .cached id t := by
  cases c with
  | absent => simp [cacheValid] at h
  | cached cid t =>
    simp [cacheValid] at h
    exact ⟨t, by rw [h.2]⟩

theorem lookup_frame (w : World) (now : Nat) :
    ((lookup w now).2).store = w.store ∧
    ((lookup w now).2).handles = w.handles ∧
    ((lookup w now).2).nextIdent = w.nextIdent ∧
    ((lookup w now).2).config = w.config := by
  unfold lookup
  rcases hcv : cacheValid w.config w.cache now with _ | id
  · rcases hst : w.store with _ | obj <;> simp [hst]
  · simp

theorem lookup_cache (w : World) (now : Nat) :
    ((lookup w now).2).cache = w.cache ∨
    ((lookup w now).2).cache = .absent ∨
    ∃ obj, w.store = some obj ∧ ((lookup w now).2).cache = .cached obj.ident now := by
  unfold lookup
  rcases hcv : cacheValid w.config w.cache now with _ | id
  · rcases hst : w.store with _ | obj
    · simp [hst]
    · rcases hserve : w.config.serve_lookup_from_cache <;> simp [hst, hserve]
  · simp

theorem lookup_ok_ident {w : World} {now id : Nat}
    (h : (lookup w now).1 = .ok id) :
    (∃ t, w.cache = .cached id t) ∨ (∃ obj, w.store = some obj ∧ obj.ident = id) := by
  unfold lookup at h
  rcases hcv : cacheValid w.config w.cache now with _ | id'
  · rw [hcv] at h
    rcases hst : w.store with _ | obj <;> rw [hst] at h <;> simp at h
    exact Or.inr ⟨obj, rfl, h⟩
  · rw [hcv] at h
    simp at h
    subst h
    exact Or.inl (cacheValid_some hcv)

theorem evictIfIdent_cases (c : CacheState) (id : Nat) :
    evictIfIdent c id = c ∨ evictIfIdent c id = .absent := by
  cases c with
  | absent => exact Or.inr rfl
  | cached cid t =>
    rcases h : decide (cid = id) with _ | _
    · exact Or.inl (by simp [evictIfIdent, of_decide_eq_false h])
    · exact Or.inr (by simp [evictIfIdent, of_decide_eq_true h])

theorem readHandle_frame (w : World) (h : Handle) :
    ((readHandle w h).2).store = w.store ∧
    ((readHandle w h).2).handles = w.handles ∧
    ((readHandle w h).2).nextIdent = w.nextIdent ∧
    (((readHandle w h).2).cache = w.cache ∨ ((readHandle w h).2).cache = .absent) := by
  unfold readHandle
  rcases hso : w.store with _ | obj
  · simpa using evictIfIdent_cases w.cache h.ident
  · dsimp only
    split
    · simp [hso]
    · simpa [hso] using evictIfIdent_cases w.cache h.ident

theorem worldStep_inv {w : World} (e : WorldEvent) (hw : WorldInv w) :
    WorldInv (worldStep w e) := by
  obtain ⟨hst, hca, hhi, hhd⟩ := hw
  cases e with
  | put d =>
    refine ⟨?_, ?_, ?_, ?_⟩
    · intro obj hobj
      simp [worldStep, extPut] at hobj
      simp [worldStep, extPut, ← hobj]
    · intro id t hc
      simp [worldStep, extPut] at hc ⊢
      exact Nat.lt_succ_of_lt (hca id t hc)
    · intro h hh
      simp [worldStep, extPut] at hh ⊢
      exact Nat.lt_succ_of_lt (hhi h hh)
    · intro h hh obj hobj hid
      simp [worldStep, extPut] at hh hobj
      have := hhi h hh
      rw [← hobj] at hid
      simp at hid
      omega
  | delete =>
    exact ⟨fun obj hobj => by simp [worldStep, extDelete] at hobj,
           fun id t hc => hca id t hc,
           fun h hh => hhi h hh,
           fun h hh obj hobj => by simp [worldStep, extDelete] at hobj⟩
  | doLookup now =>
    obtain ⟨hfs, hfh, hfn, _⟩ := lookup_frame w now
    have hwS : worldStep w (.doLookup now) = (lookup w now).2 := rfl
    rw [hwS]
    refine ⟨fun obj hobj => ?_, fun id t hc => ?_, fun h hh => ?_, fun h hh obj hobj => ?_⟩
    · rw [hfs] at hobj
      rw [hfn]
      exact hst obj hobj
    · rw [hfn]
      rcases lookup_cache w now with hc' | hc' | ⟨obj, hobj, hc'⟩
      · rw [hc'] at hc
        exact hca id t hc
      · rw [hc'] at hc
        exact absurd hc (by simp)
      · rw [hc'] at hc
        injection hc with h1 h2
        rw [← h1]
        exact hst obj hobj
    · rw [hfh] at hh
      rw [hfn]
      exact hhi h hh
    · rw [hfh] at hh
      rw [hfs] at hobj
      exact hhd h hh obj hobj
  | doRead i =>
    rcases hh : w.handles[i]? with _ | h
    · simpa [worldStep, hh] using ⟨hst, hca, hhi, hhd⟩
    · have hwS : worldStep w (.doRead i) = (readHandle w h).2 := by
        simp [worldStep, hh]
      rw [hwS]
      obtain ⟨hfs, hfh, hfn, hfc⟩ := readHandle_frame w h
      refine ⟨fun obj hobj => ?_, fun id t hc => ?_, fun h' hh' => ?_,
        fun h' hh' obj hobj => ?_⟩
      · rw [hfs] at hobj
        rw [hfn]
        exact hst obj hobj
      · rw [hfn]
        rcases hfc with hc' | hc' <;> rw [hc'] at hc
        · exact hca id t hc
        · exact absurd hc (by simp)
      · rw [hfh] at hh'
        rw [hfn]
        exact hhi h' hh'
      · rw [hfh] at hh'
        rw [hfs] at hobj
        exact hhd h' hh' obj hobj
  | doOpen now =>
    obtain ⟨hfs, hfh, hfn, -⟩ := lookup_frame w now
    have hinv' : ∀ id t, ((lookup w now).2).cache = .cached id t →
        id < ((lookup w now).2).nextIdent := by
      intro id t hc
      rw [hfn]
      rcases lookup_cache w now with hc' | hc' | ⟨obj, hobj, hc'⟩ <;> rw [hc'] at hc
      · exact hca id t hc
      · exact absurd hc (by simp)
      · injection hc with h1 h2
        rw [← h1]
        exact hst obj hobj
    cases hres : (lookup w now).1 with
    | error e =>
      simp only [worldStep, openFile, hres]
      refine ⟨fun obj hobj => ?_, hinv', fun h hh => ?_, fun h hh obj hobj => ?_⟩
      · rw [hfs] at hobj
        rw [hfn]
        exact hst obj hobj
      · rw [hfh] at hh
        rw [hfn]
        exact hhi h hh
      · rw [hfh] at hh
        rw [hfs] at hobj
        exact hhd h hh obj hobj
    | ok id =>
      simp only [worldStep, openFile, hres]
      refine ⟨fun obj hobj => ?_, fun id' t hc => ?_, fun h hh => ?_,
        fun h hh obj hobj hid => ?_⟩
      · dsimp only at hobj ⊢
        rw [hfs] at hobj
        rw [hfn]
        exact hst obj hobj
      · dsimp only at hc ⊢
        exact hinv' id' t hc
      · dsimp only at hh ⊢
        rw [hfn]
        rcases List.mem_cons.mp hh with rfl | hh
        · dsimp only
          rcases lookup_ok_ident hres with ⟨t, hc⟩ | ⟨obj, hobj, hoid⟩
          · exact hca id t hc
          · exact hoid ▸ hst obj hobj
        · rw [hfh] at hh
          exact hhi h hh
      · dsimp only at hh hobj hid ⊢
        rcases List.mem_cons.mp hh with rfl | hh
        · dsimp only at hid ⊢
          simp [hobj, hid]
        · rw [hfh] at hh
          rw [hfs] at hobj
          exact hhd h hh obj hobj hid

theorem runWorld_inv (evs : List WorldEvent) (w : World) (hw : WorldInv w) :
    WorldInv (runWorld w evs) := by
  induction evs generalizing w with
  | nil => exact hw
  | cons e evs ih => exact ih (worldStep w e) (worldStep_inv e hw)

theorem initWorld_inv (cfg : CacheConfig) : WorldInv (initWorld cfg) := by
  refine ⟨?_, ?_, ?_, ?_⟩ <;> simp [initWorld, WorldInv]

/-- **C1**: for every handle bound in any reachable world — in particular
one bound before an out-of-band overwrite of the path — a read through the
handle either fails or returns exactly the bytes the handle's identity
snapshot captured at open time; it can never return bytes of a newer
object generation. -/
theorem C1_handle_isolation (cfg : CacheConfig) (evs : List WorldEvent) (h : Handle)
    (d : List Nat)
    (hmem : h ∈ (runWorld (initWorld cfg) evs).handles)
    (hread : (readHandle (runWorld (initWorld cfg) evs) h).1 = .ok d) :
    d = h.dataAtOpen := by
  obtain ⟨hst, hca, hhi, hhd⟩ := runWorld_inv evs (initWorld cfg) (initWorld_inv cfg)
  set w := runWorld (initWorld cfg) evs with hw
  unfold readHandle at hread
  rcases hso : w.store with _ | obj
  · rw [hso] at hread
    simp at hread
  · rw [hso] at hread
    dsimp only at hread
    split at hread
    · simp at hread
      rw [← hread]
      exact hhd h hmem obj hso (by assumption)
    · simp at hread

theorem C1_witness :
    (({ ident := 0, dataAtOpen := [7] } : Handle) ∈
      (runWorld
        (initWorld { serve_lookup_from_cache := true, dir_ttl := 600, file_ttl := 600 })
        [.put [7], .doOpen 0]).handles) ∧
    (readHandle
      (runWorld
        (initWorld { serve_lookup_from_cache := true, dir_ttl := 600, file_ttl := 600 })
        [.put [7], .doOpen 0]) { ident := 0, dataAtOpen := [7] }).1 = .ok [7] ∧
    ([7] : List Nat) = ({ ident := 0, dataAtOpen := [7] } : Handle).dataAtOpen :=
  ⟨by decide, rfl,
   C1_handle_isolation { serve_lookup_from_cache := true, dir_ttl := 600, file_ttl := 600 }
     [.put [7], .doOpen 0] { ident := 0, dataAtOpen := [7] } [7] (by decide) rfl⟩

/-- **C2**: with caching enabled and a 600s TTL, after an out-of-band
overwrite (store holds a new generation whose identity differs from the
cached one): a fresh open within the TTL window succeeds from the stale
cache entry without a remote call, its first read fails and evicts the
entry, and the next fresh open+read succeeds and returns the new
generation's bytes. -/
theorem C2_eviction_on_overwrite (cfg : CacheConfig) (obj : RemoteObject)
    (id t now1 now2 ni c : Nat) (hs : List Handle)
    (hserve : cfg.serve_lookup_from_cache = true)
    (httl : cfg.file_ttl = 600)
    (hne : obj.ident ≠ id)
    (hfresh : now1 ≤ t + 600) :
    (openFile { config := cfg, store := some obj, nextIdent := ni, cache := .cached id t,
                handles := hs, remoteLookupCount := c } now1).1 =
        .ok { ident := id, dataAtOpen := [] } ∧
    ((openFile { config := cfg, store := some obj, nextIdent := ni, cache := .cached id t,
                 handles := hs, remoteLookupCount := c } now1).2).remoteLookupCount = c ∧
    (readHandle ((openFile { config := cfg, store := some obj, nextIdent := ni,
                             cache := .cached id t, handles := hs, remoteLookupCount := c }
                  now1).2) { ident := id, dataAtOpen := [] }).1 = .error .readFailure ∧
    ((readHandle ((openFile { config := cfg, store := some obj, nextIdent := ni,
                              cache := .cached id t, handles := hs, remoteLookupCount := c }
                   now1).2) { ident := id, dataAtOpen := [] }).2).cache = .absent ∧
    (openAndRead ((readHandle ((openFile { config := cfg, store := some obj, nextIdent := ni,
                                           cache := .cached id t, handles := hs,
                                           remoteLookupCount := c }
                                now1).2) { ident := id, dataAtOpen := [] }).2) now2).1 =
        .ok obj.data := by
  simp [openFile, lookup, cacheValid, readHandle, openAndRead, evictIfIdent,
        hserve, httl, hne, hfresh]

/-- The P6 scenario at concrete values: cached identity 3, remote
generation 5 with bytes `0xBB 0xBB`. -/
def overwrittenWorld : World :=
  { config := { serve_lookup_from_cache := true, dir_ttl := 600, file_ttl := 600 },
    store := some { ident := 5, data := [187, 187] },
    nextIdent := 6, cache := .cached 3 100, handles := [], remoteLookupCount := 2 }

theorem C2_witness :
    (openFile overwrittenWorld 150).1 = .ok { ident := 3, dataAtOpen := [] } ∧
    ((openFile overwrittenWorld 150).2).remoteLookupCount = 2 ∧
    (readHandle ((openFile overwrittenWorld 150).2)
      { ident := 3, dataAtOpen := [] }).1 = .error .readFailure ∧
    ((readHandle ((openFile overwrittenWorld 150).2)
      { ident := 3, dataAtOpen := [] }).2).cache = .absent ∧
    (openAndRead ((readHandle ((openFile overwrittenWorld 150).2)
      { ident := 3, dataAtOpen := [] }).2) 160).1 = .ok [187, 187] := by
  exact C2_eviction_on_overwrite
    { serve_lookup_from_cache := true, dir_ttl := 600, file_ttl := 600 }
    { ident := 5, data := [187, 187] } 3 100 150 160 6 2 []
    rfl rfl (by decide) (by decide)

/-- **C3**: with caching enabled and a 600s TTL, after an out-of-band
delete: the first fresh open+read within the TTL window fails with the
generic read failure (the stale entry was still served) and evicts the
entry; the second fresh open+read fails as not-found, since the fresh
remote lookup confirms the object is absent. -/
theorem C3_eviction_on_delete (cfg : CacheConfig) (id t now1 now2 ni c : Nat)
    (hs : List Handle)
    (hserve : cfg.serve_lookup_from_cache = true)
    (httl : cfg.file_ttl = 600)
    (hfresh : now1 ≤ t + 600) :
    (openAndRead { config := cfg, store := none, nextIdent := ni, cache := .cached id t,
                   handles := hs, remoteLookupCount := c } now1).1 = .error .readFailure ∧
    ((openAndRead { config := cfg, store := none, nextIdent := ni, cache := .cached id t,
                    handles := hs, remoteLookupCount := c } now1).2).cache = .absent ∧
    (openAndRead ((openAndRead { config := cfg, store := none, nextIdent := ni,
                                 cache := .cached id t, handles := hs,
                                 remoteLookupCount := c } now1).2) now2).1 =
        .error .notFound := by
  simp [openFile, lookup, cacheValid, readHandle, openAndRead, evictIfIdent,
        hserve, httl, hfresh]

/-- The P7 scenario at concrete values: cached identity 3, object deleted
out-of-band. -/
def deletedWorld : World :=
  { config := { serve_lookup_from_cache := true, dir_ttl := 600, file_ttl := 600 },
    store := none, nextIdent := 6, cache := .cached 3 100, handles := [],
    remoteLookupCount := 2 }

theorem C3_witness :
    (openAndRead deletedWorld 150).1 = .error .readFailure ∧
    ((openAndRead deletedWorld 150).2).cache = .absent ∧
    (openAndRead ((openAndRead deletedWorld 150).2) 160).1 = .error .notFound := by
  exact C3_eviction_on_delete
    { serve_lookup_from_cache := true, dir_ttl := 600, file_ttl := 600 }
    3 100 150 160 6 2 [] rfl rfl (by decide)

theorem runLookups_steady (ts : List Nat) : ∀ (w : World) (i t0 : Nat),
    w.config.serve_lookup_from_cache = true →
    w.cache = .cached i t0 →
    (∀ t ∈ ts, t ≤ t0 + w.config.file_ttl) →
    runLookups w ts = w := by
  induction ts with
  | nil => exact fun w i t0 _ _ _ => rfl
  | cons t ts ih =>
    intro w i t0 hserve hc hts
    have hcv : cacheValid w.config w.cache t = some i := by
      simp [cacheValid, hc, hserve, hts t (by simp)]
    have hstep : (lookup w t).2 = w := by
      unfold lookup
      rw [hcv]
    have hfold : runLookups w (t :: ts) = runLookups ((lookup w t).2) ts := rfl
    rw [hfold, hstep]
    exact ih w i t0 hserve hc (fun t' ht' => hts t' (by simp [ht']))

/-- **C9**: with caching enabled and a 600s TTL, a run of repeated lookups
of an existing path within one TTL window issues at most one remote
lookup call; an entry whose TTL has elapsed is never served without
re-resolution (the lookup performs a remote call); and with
`serve_lookup_from_cache = false` every lookup resolves fresh from the
remote store. -/
theorem C9_ttl_caching :
    (∀ (cfg : CacheConfig) (obj : RemoteObject) (ni c t0 : Nat) (hs : List Handle)
       (rest : List Nat),
       cfg.serve_lookup_from_cache = true → cfg.file_ttl = 600 →
       (∀ t ∈ rest, t ≤ t0 + 600) →
       (runLookups { config := cfg, store := some obj, nextIdent := ni, cache := .absent,
                     handles := hs, remoteLookupCount := c }
         (t0 :: rest)).remoteLookupCount ≤ c + 1) ∧
    (∀ (w : World) (id t now : Nat), w.cache = .cached id t →
       t + w.config.file_ttl < now →
       ((lookup w now).2).remoteLookupCount = w.remoteLookupCount + 1) ∧
    (∀ (w : World) (now : Nat), w.config.serve_lookup_from_cache = false →
       ((lookup w now).2).remoteLookupCount = w.remoteLookupCount + 1) := by
  refine ⟨?_, ?_, ?_⟩
  · intro cfg obj ni c t0 hs rest hserve httl hrest
    set w0 : World := { config := cfg, store := some obj, nextIdent := ni, cache := .absent,
                        handles := hs, remoteLookupCount := c } with hw0
    set w1 : World := { config := cfg, store := some obj, nextIdent := ni,
                        cache := .cached obj.ident t0, handles := hs,
                        remoteLookupCount := c + 1 } with hw1
    have hst : (lookup w0 t0).2 = w1 := by
      simp [hw0, hw1, lookup, cacheValid, hserve]
    have h1 : runLookups w0 (t0 :: rest) = runLookups w1 rest := by
      show runLookups ((lookup w0 t0).2) rest = runLookups w1 rest
      rw [hst]
    rw [h1, runLookups_steady rest w1 obj.ident t0 (by simp [hw1, hserve]) (by simp [hw1])
      (fun t' ht' => by simpa [hw1, httl] using hrest t' ht')]
  · intro w id t now hc hexp
    have hcv : cacheValid w.config w.cache now = none := by
      simp [cacheValid, hc]
      omega
    unfold lookup
    rw [hcv]
    rcases hso : w.store with _ | obj <;> simp
  · intro w now hserve
    have hcv : cacheValid w.config w.cache now = none := by
      cases hc : w.cache <;> simp [cacheValid, hserve]
    unfold lookup
    rw [hcv]
    rcases hso : w.store with _ | obj <;> simp

theorem C9_witness :
    (runLookups { config := { serve_lookup_from_cache := true, dir_ttl := 600,
                              file_ttl := 600 },
                  store := some { ident := 0, data := [7] }, nextIdent := 1,
                  cache := .absent, handles := [],
                  remoteLookupCount := 0 } [10, 20, 30]).remoteLookupCount ≤ 0 + 1 ∧
    ((lookup { config := { serve_lookup_from_cache := true, dir_ttl := 600,
                           file_ttl := 600 },
               store := some { ident := 5, data := [187] }, nextIdent := 6,
               cache := .cached 3 100, handles := [],
               remoteLookupCount := 2 } 800).2).remoteLookupCount = 2 + 1 ∧
    ((lookup { config := { serve_lookup_from_cache := false, dir_ttl := 600,
                           file_ttl := 600 },
               store := some { ident := 5, data := [187] }, nextIdent := 6,
               cache := .cached 3 100, handles := [],
               remoteLookupCount := 2 } 150).2).remoteLookupCount = 2 + 1 := by
  refine ⟨?_, ?_, ?_⟩
  · exact C9_ttl_caching.1 _ _ 1 0 10 [] [20, 30] rfl rfl (by decide)
  · exact C9_ttl_caching.2.1 _ 3 100 800 rfl (by decide)
  · exact C9_ttl_caching.2.2 _ 150 rfl

end Mountpoint
